import Mathlib

/-!
Verification development for the `lncd` session-pool daemon
(`src/lncd/lncd.go`).  The Go source is shallowly embedded: pure helpers
become Lean functions, the stateful pool becomes explicit state passing
over an association-list model of the Go map, and the statement order of
`ConnectionPool.execute` / the idle-timer callback is recorded as an
explicit event trace so that lock discipline and callback counts can be
stated and proved.
-/

namespace Lncd

/-- Mirrors Go `ConnectionInfo` (the string fields; the macaroon pointer is
carried by the permission-manager model instead). -/
structure ConnectionInfo where
  mailbox       : String
  pairingPhrase : String
  localKey      : String
  remoteKey     : String
  status        : String
  deriving DecidableEq, Repr

/-- Mirrors Go `ConnectionKey`: the session key `(mailbox, pairingPhrase)`. -/
structure ConnectionKey where
  mailbox       : String
  pairingPhrase : String
  deriving DecidableEq, Repr

/-! ## Hex decoding (Go `encoding/hex.DecodeString`)

`hex.DecodeString` fails on an odd-length input or any non-hex digit and
otherwise yields one byte per digit pair; upper- and lower-case digits are
both accepted. -/

/-- Value of a single hex digit, `none` for a non-digit. -/
def hexDigitVal (c : Char) : Option Nat :=
  if '0' ≤ c ∧ c ≤ '9' then some (c.toNat - '0'.toNat)
  else if 'a' ≤ c ∧ c ≤ 'f' then some (c.toNat - 'a'.toNat + 10)
  else if 'A' ≤ c ∧ c ≤ 'F' then some (c.toNat - 'A'.toNat + 10)
  else none

/-- Decode a list of hex digits two at a time, as `hex.DecodeString` does;
fails on odd length or a non-digit. -/
def hexDecodeChars : List Char → Option (List Nat)
  | [] => some []
  | [_] => none
  | c1 :: c2 :: rest =>
    match hexDigitVal c1, hexDigitVal c2, hexDecodeChars rest with
    | some h, some l, some tail => some ((h * 16 + l) :: tail)
    | _, _, _ => none

/-- Go `hex.DecodeString` on a string. -/
def hexDecode (s : String) : Option (List Nat) :=
  hexDecodeChars s.data

/-- Big-endian bytes to a natural number. -/
def bytesToNat (bs : List Nat) : Nat :=
  bs.foldl (fun a b => a * 256 + b) 0

/-! ## secp256k1 point and scalar models (external `btcec` collaborators)

`btcec.PrivKeyFromBytes` reduces the big-endian bytes modulo the group
order and never fails; `btcec.ParsePubKey` on the 33-byte compressed
encodings admitted by the spec checks the prefix byte, the field-range of
`x`, and that `x^3 + 7` is a square modulo the field prime.  These are
library collaborators outside the repository; they are modelled from their
documented behaviour on the spec's input shapes. -/

/-- The secp256k1 field prime. -/
def pSecp : Nat := 2 ^ 256 - 2 ^ 32 - 977

/-- The secp256k1 group order. -/
def nSecp : Nat :=
  115792089237316195423570985008687907852837564279074904382605163141518161494337

/-- Fuelled square-and-multiply helper for modular exponentiation. -/
def powModAux (m : Nat) : Nat → Nat → Nat → Nat → Nat
  | 0, _, _, acc => acc
  | fuel + 1, b, e, acc =>
    if e = 0 then acc
    else
      powModAux m fuel (b * b % m) (e / 2)
        (if e % 2 = 1 then acc * b % m else acc)

/-- Modular exponentiation `b ^ e % m` (fuel covers 256-bit exponents). -/
def powMod (m b e : Nat) : Nat :=
  powModAux m 257 (b % m) e (1 % m)

/-- Candidate modular square root via the `(p+1)/4` exponent (the field
prime is `3 mod 4`); the caller checks the square. -/
def sqrtCandidate (a : Nat) : Nat :=
  powMod pSecp a ((pSecp + 1) / 4)

/-- A point on the curve, as affine coordinates. -/
structure Point where
  x : Nat
  y : Nat
  deriving DecidableEq, Repr

/-- Model of `btcec.PrivKeyFromBytes`: reduce the bytes modulo the group
order; never fails. -/
def privKeyFromBytes (bs : List Nat) : Nat :=
  bytesToNat bs % nSecp

/-- Model of `btcec.ParsePubKey` on the compressed encodings the spec
admits: 33 bytes, prefix `02`/`03`, `x` in field range, `x^3 + 7` a square;
the returned `y` matches the parity requested by the prefix. -/
def parsePubKey (bs : List Nat) : Option Point :=
  if bs.length = 33 then
    match bs.head? with
    | some pre =>
      if pre = 2 ∨ pre = 3 then
        let x := bytesToNat (bs.drop 1)
        if x < pSecp then
          let rhs := (x ^ 3 + 7) % pSecp
          let y0 := sqrtCandidate rhs
          if y0 * y0 % pSecp = rhs then
            let y := if (y0 % 2 = 1) = (pre = 3) then y0 else (pSecp - y0) % pSecp
            some ⟨x, y⟩
          else none
        else none
      else none
    | none => none
  else none

/-! ## `parseKeys` (src/lncd/lncd.go lines 379-440)

The Go switch has three branches decided by which inputs are empty:
both empty, `remotePubKey` empty, and the default branch.  Minting a fresh
private key (`btcec.NewPrivateKey`) draws from the process entropy source;
the draw is passed in as the `fresh` argument and assumed successful. -/

/-- Shallow embedding of `parseKeys`.  `fresh` stands for the scalar that
`btcec.NewPrivateKey` would return in the both-empty branch. -/
def parseKeys (fresh : Nat) (localPrivKey remotePubKey : String) :
    Except String (Nat × Option Point) :=
  if localPrivKey = "" ∧ remotePubKey = "" then
    Except.ok (fresh, none)
  else if remotePubKey = "" then
    match hexDecode localPrivKey with
    | none => Except.error "BadKey: invalid hex in local private key"
    | some bs => Except.ok (privKeyFromBytes bs, none)
  else
    match hexDecode localPrivKey with
    | none => Except.error "BadKey: invalid hex in local private key"
    | some lb =>
      match hexDecode remotePubKey with
      | none => Except.error "BadKey: invalid hex in remote public key"
      | some rb =>
        match parsePubKey rb with
        | none => Except.error "BadKey: invalid remote public key point"
        | some pt => Except.ok (privKeyFromBytes lb, some pt)

/-! ## JSON helpers (Go `encoding/json` collaborators)

`Connection.runLoop` uses `json.Unmarshal` into a `[]string` and
`json.Marshal` of a `[]bool`.  These are standard-library collaborators
outside the repository; the decoder below models them on the payload
shapes the spec discusses: a JSON array of strings (escape sequences other
than the single-character ones are not modelled), JSON `null` (which
`json.Unmarshal` accepts, leaving the initialised empty slice in place),
and everything else failing.  `json.Marshal` of a non-nil `[]bool` always
succeeds and is modelled as a total function. -/

/-- Skip JSON whitespace. -/
def skipWs : List Char → List Char
  | [] => []
  | c :: rest =>
    if c = ' ' ∨ c = '\t' ∨ c = '\n' ∨ c = '\r' then skipWs rest else c :: rest

/-- Single-character JSON escapes: the quote, backslash and slash stand
for themselves; `n`, `t`, `r`, `b`, `f` for the usual control characters. -/
def escChar (c : Char) : Option Char :=
  if c = '"' ∨ c = '\\' ∨ c = '/' then some c
  else if c = 'n' then some (Char.ofNat 10)
  else if c = 't' then some (Char.ofNat 9)
  else if c = 'r' then some (Char.ofNat 13)
  else if c = 'b' then some (Char.ofNat 8)
  else if c = 'f' then some (Char.ofNat 12)
  else none

/-- Parse the body of a JSON string after its opening quote; returns the
string contents and the remaining input. -/
def parseStrBody : List Char → Option (List Char × List Char)
  | [] => none
  | '"' :: rest => some ([], rest)
  | '\\' :: [] => none
  | '\\' :: c :: rest =>
    match escChar c, parseStrBody rest with
    | some d, some (s, r) => some (d :: s, r)
    | _, _ => none
  | c :: rest =>
    match parseStrBody rest with
    | some (s, r) => some (c :: s, r)
    | none => none

/-- Parse one or more comma-separated JSON strings followed by `]`. -/
def parseItemsAux : Nat → List Char → Option (List String × List Char)
  | 0, _ => none
  | fuel + 1, cs =>
    match skipWs cs with
    | '"' :: rest =>
      match parseStrBody rest with
      | none => none
      | some (s, r) =>
        match skipWs r with
        | ',' :: r2 =>
          match parseItemsAux fuel r2 with
          | some (items, r3) => some (String.mk s :: items, r3)
          | none => none
        | ']' :: r2 => some ([String.mk s], r2)
        | _ => none
    | _ => none

/-- Model of `json.Unmarshal(payload, &stringSlice)`: succeeds on a JSON
array of strings (returning them in order) and on `null` (leaving the
initialised empty slice); fails otherwise. -/
def decodeStringArray (payload : String) : Option (List String) :=
  match skipWs payload.data with
  | 'n' :: 'u' :: 'l' :: 'l' :: rest =>
    if (skipWs rest).isEmpty then some [] else none
  | '[' :: rest =>
    match skipWs rest with
    | ']' :: rest2 => if (skipWs rest2).isEmpty then some [] else none
    | _ =>
      match parseItemsAux (rest.length + 1) rest with
      | some (items, r) => if (skipWs r).isEmpty then some items else none
      | none => none
  | _ => none

/-- Model of `json.Marshal` on a non-nil `[]bool`. -/
def encodeBoolArray (l : List Bool) : String :=
  "[" ++ String.intercalate "," (l.map (fun b => if b then "true" else "false")) ++ "]"

/-! ## Permission manager

Modelled from the spec: the repository's `PermissionManager`
(`NewPermissionManager`, `perms.check`) is referenced by
`src/lncd/lncd.go` but its defining file is not under `src/`.  Per spec
§4.D, the capability set is a set of `(entity, action)` pairs;
`check(requested)` parses `requested` as `entity:action` — unknown syntax
fails with `BadPermissionFormat` — and answers true iff the exact pair, or
`(entity, "*")`, or `("*", action)`, or `("*", "*")` is present. -/

/-- Split a character list on `:` separators. -/
def splitColonAux : List Char → List Char → List (List Char)
  | [], acc => [acc.reverse]
  | c :: rest, acc =>
    if c = ':' then acc.reverse :: splitColonAux rest []
    else splitColonAux rest (c :: acc)

/-- Modelled from the spec: parse a permission string as `entity:action`
(exactly one `:`; anything else is unknown syntax). -/
def permPair (s : String) : Option (String × String) :=
  match splitColonAux s.data [] with
  | [e, a] => some (String.mk e, String.mk a)
  | _ => none

/-- Whether the capability set grants `(e, a)` directly or via wildcards. -/
def capAllows (caps : List (String × String)) (e a : String) : Bool :=
  caps.contains (e, a) || caps.contains (e, "*") ||
    caps.contains ("*", a) || caps.contains ("*", "*")

/-- The spec's allow predicate: a permission string is allowed by the
capability set iff it parses as `entity:action` and `capAllows` grants it. -/
def permAllowed (caps : List (String × String)) (requested : String) : Bool :=
  match permPair requested with
  | some (e, a) => capAllows caps e a
  | none => false

/-- Modelled from the spec: `perms.check(requested)`. -/
def permCheck (caps : List (String × String)) (requested : String) :
    Except String Bool :=
  match permPair requested with
  | none => Except.error "BadPermissionFormat"
  | some (e, a) => Except.ok (capAllows caps e a)

/-! ## Dispatch loop (`Connection.runLoop`, src/lncd/lncd.go lines 205-250)

The loop body for one dequeued action is embedded as a function from the
connection state and the action to the list of callback invocations it
performs, in order.  A registry invoker is an external `lnrpc` collaborator
assumed to call its `done` callback exactly once; its outcome is the value
stored in the registry model. -/

/-- Outcome with which a registry invoker calls its `done` callback. -/
inductive InvokerOutcome where
  | ok (resultJSON : String)
  | fail (err : String)
  deriving DecidableEq, Repr

/-- A callback invocation on an action: `onError` or `onResponse`. -/
inductive CallbackEvent where
  | onError (e : String)
  | onResponse (info : ConnectionInfo) (result : String)
  deriving DecidableEq, Repr

/-- One action, as seen by the dispatch loop (its callbacks are modelled
by the returned `CallbackEvent` trace). -/
structure ActionModel where
  method  : String
  payload : String
  deriving DecidableEq, Repr

/-- The per-connection state the dispatch loop reads: the descriptor, the
capability set behind `conn.perms`, and the method registry. -/
structure ConnModel where
  connInfo : ConnectionInfo
  caps     : List (String × String)
  registry : List (String × InvokerOutcome)
  deriving DecidableEq, Repr

/-- Go map lookup on the registry model. -/
def lookupReg : List (String × InvokerOutcome) → String → Option InvokerOutcome
  | [], _ => none
  | (k, v) :: rest, m => if k = m then some v else lookupReg rest m

/-- Shallow embedding of one iteration of `Connection.runLoop` for a
dequeued action `req`: the callback invocations it performs, in order. -/
def runLoopStep (conn : ConnModel) (req : ActionModel) : List CallbackEvent :=
  if req.method = "checkPerms" then
    match decodeStringArray req.payload with
    | none => [CallbackEvent.onError "json unmarshal error"]
    | some perms =>
      let valid := perms.map (fun perm =>
        match permCheck conn.caps perm with
        | Except.error _ => false
        | Except.ok allowed => allowed)
      [CallbackEvent.onResponse conn.connInfo (encodeBoolArray valid)]
  else
    match lookupReg conn.registry req.method with
    | some (InvokerOutcome.ok s) => [CallbackEvent.onResponse conn.connInfo s]
    | some (InvokerOutcome.fail e) => [CallbackEvent.onError e]
    | none => []

/-! ## Session pool (`ConnectionPool.execute`, src/lncd/lncd.go lines 257-312)

The Go map `pool.connections` is modelled as an association list with
distinct keys.  A live `Connection` is summarised by the state the pool
logic reads: its descriptor, the current depth of its capacity-1 action
channel (`len(connection.actions)`), and a counter of how many times its
idle timer has been armed (`time.AfterFunc` at creation, `Reset` on a
non-empty firing) — the counter lets "the timer was not reset" be stated.

`execute`'s observable behaviour is recorded as a trace of atomic events
in the statement order of the Go source: lock acquisition and release,
the span of `NewConnection` (the handshake), callback invocations,
channel sends, the 1-second retry sleep, and the nil-pointer dereference
that the failed-construction path runs into at `connection.actions <- req`
(the `if err != nil` branch falls through to the send with `connection`
still nil). -/

/-- Pool-visible summary of one live `Connection`. -/
structure SessionModel where
  connInfo : ConnectionInfo
  queueLen : Nat
  timerGen : Nat
  deriving DecidableEq, Repr

/-- The pool's `connections` map, as an association list. -/
def PoolModel : Type := List (ConnectionKey × SessionModel)

/-- Go map read `pool.connections[key]`. -/
def lookupPool : List (ConnectionKey × SessionModel) → ConnectionKey →
    Option SessionModel
  | [], _ => none
  | (k, v) :: rest, key => if k = key then some v else lookupPool rest key

/-- Go map delete `delete(pool.connections, key)` (keys are distinct, so
removing the first match suffices). -/
def erasePool : List (ConnectionKey × SessionModel) → ConnectionKey →
    List (ConnectionKey × SessionModel)
  | [], _ => []
  | (k, v) :: rest, key =>
    if k = key then rest else (k, v) :: erasePool rest key

/-- Apply `f` to the session stored under `key`, leaving other entries
unchanged (Go map write to an existing key). -/
def updatePool : List (ConnectionKey × SessionModel) → ConnectionKey →
    (SessionModel → SessionModel) → List (ConnectionKey × SessionModel)
  | [], _, _ => []
  | (k, v) :: rest, key, f =>
    if k = key then (k, f v) :: updatePool rest key f
    else (k, v) :: updatePool rest key f

/-- Atomic events of `execute` and of the idle-timer callback, in source
statement order. -/
inductive PEv where
  | lock
  | unlock
  | beginHandshake
  | endHandshake
  | enqueue (key : ConnectionKey)
  | cbError (e : String)
  | nilDeref
  | sleep
  | closeSession (key : ConnectionKey)
  | resetTimer (key : ConnectionKey)
  deriving DecidableEq, Repr

/-- How one `try()` call ends: a hand-off of the action, a cap rejection
requesting a retry, or the nil-pointer dereference of the
failed-construction path. -/
inductive TryRes where
  | handedOff
  | retry
  | crashed
  deriving DecidableEq, Repr

/-- The session key derived from a descriptor inside `execute`
(`ConnectionKey{info.Mailbox, info.PairingPhrase}`). -/
def keyOf (info : ConnectionInfo) : ConnectionKey :=
  ⟨info.mailbox, info.pairingPhrase⟩

/-- Shallow embedding of the `try` closure inside `ConnectionPool.execute`
(the caller holds the pool lock for the whole call).  `limit` is
`LNCD_LIMIT_ACTIVE_CONNECTIONS`; `newConn` is the outcome the external
handshake (`NewConnection`) would produce, with a fresh session carrying an
empty queue and an unarmed timer.  Returns the new pool, the event trace of
the call, and how it ended. -/
def tryModel (limit : Nat) (newConn : Except String SessionModel)
    (pool : List (ConnectionKey × SessionModel)) (info : ConnectionInfo) :
    List (ConnectionKey × SessionModel) × List PEv × TryRes :=
  match lookupPool pool (keyOf info) with
  | some _ =>
    (updatePool pool (keyOf info) (fun s => { s with queueLen := s.queueLen + 1 }),
     [PEv.enqueue (keyOf info)], TryRes.handedOff)
  | none =>
    if pool.length ≥ limit then
      (pool, [PEv.cbError "too many active connections"], TryRes.retry)
    else
      match newConn with
      | Except.error e =>
        (pool,
         [PEv.beginHandshake, PEv.endHandshake, PEv.cbError e, PEv.nilDeref],
         TryRes.crashed)
      | Except.ok sess =>
        ((keyOf info, { sess with queueLen := sess.queueLen + 1, timerGen := 1 })
           :: pool,
         [PEv.beginHandshake, PEv.endHandshake, PEv.enqueue (keyOf info)],
         TryRes.handedOff)

/-- One iteration of `execute`'s retry loop: lock, run `try`, unlock (the
unlock is never reached on the crash path, and the retry path appends the
1-second sleep). -/
def executeIter (limit : Nat) (newConn : Except String SessionModel)
    (pool : List (ConnectionKey × SessionModel)) (info : ConnectionInfo) :
    List (ConnectionKey × SessionModel) × List PEv × TryRes :=
  match tryModel limit newConn pool info with
  | (pool2, evs, TryRes.crashed) => (pool2, PEv.lock :: evs, TryRes.crashed)
  | (pool2, evs, TryRes.retry) =>
    (pool2, PEv.lock :: (evs ++ [PEv.unlock, PEv.sleep]), TryRes.retry)
  | (pool2, evs, TryRes.handedOff) =>
    (pool2, PEv.lock :: (evs ++ [PEv.unlock]), TryRes.handedOff)

/-- The `execute` retry loop, unrolled along a list of handshake outcomes
(one per iteration).  The result is `none` when the environment list runs
out while the loop is still retrying — the loop itself has no exit other
than a hand-off or the crash. -/
def executeModel (limit : Nat) :
    List (Except String SessionModel) →
    List (ConnectionKey × SessionModel) → ConnectionInfo →
    List (ConnectionKey × SessionModel) × List PEv × Option TryRes
  | [], pool, _ => (pool, [], none)
  | nc :: rest, pool, info =>
    if (executeIter limit nc pool info).2.2 = TryRes.retry then
      ((executeModel limit rest (executeIter limit nc pool info).1 info).1,
       (executeIter limit nc pool info).2.1 ++
         (executeModel limit rest (executeIter limit nc pool info).1 info).2.1,
       (executeModel limit rest (executeIter limit nc pool info).1 info).2.2)
    else
      ((executeIter limit nc pool info).1,
       (executeIter limit nc pool info).2.1,
       some (executeIter limit nc pool info).2.2)

/-- Shallow embedding of the idle-timer callback installed by
`time.AfterFunc` (src/lncd/lncd.go lines 275-288), for the session under
`key`: under the pool lock, an empty action channel means `Close()` and
removal from the map; a non-empty one means `Reset(LNCD_TIMEOUT)` (the
`timerGen` bump).  The timer exists only while its session is installed,
so the `none` branch is unreachable in the source and leaves the pool
unchanged. -/
def timerFire (pool : List (ConnectionKey × SessionModel))
    (key : ConnectionKey) :
    List (ConnectionKey × SessionModel) × List PEv :=
  match lookupPool pool key with
  | none => (pool, [PEv.lock, PEv.unlock])
  | some sess =>
    if sess.queueLen = 0 then
      (erasePool pool key,
       [PEv.lock, PEv.closeSession key, PEv.unlock])
    else
      (updatePool pool key (fun s => { s with timerGen := s.timerGen + 1 }),
       [PEv.lock, PEv.resetTimer key, PEv.unlock])

/-- Count of `cbError` events in a trace. -/
def countCbError (evs : List PEv) : Nat :=
  (evs.filter (fun e => match e with | PEv.cbError _ => true | _ => false)).length

/-- Whether an `unlock` occurs strictly before the first `beginHandshake`
of a trace (`false` when no handshake occurs). -/
def unlockBeforeHandshake : List PEv → Bool
  | [] => false
  | PEv.beginHandshake :: _ => false
  | PEv.unlock :: rest => if rest.contains PEv.beginHandshake then true else unlockBeforeHandshake rest
  | _ :: rest => unlockBeforeHandshake rest

/-- The pool invariants of spec §3/§8: at most `limit` entries, and
distinct session keys. -/
def poolInv (limit : Nat) (pool : List (ConnectionKey × SessionModel)) : Prop :=
  pool.length ≤ limit ∧ (pool.map Prod.fst).Nodup

/-! ## Helper lemmas about the pool association list -/

theorem lookupPool_cons (k : ConnectionKey) (v : SessionModel)
    (pool : List (ConnectionKey × SessionModel)) (key : ConnectionKey) :
    lookupPool ((k, v) :: pool) key =
      if k = key then some v else lookupPool pool key := rfl

theorem lookupPool_none_not_mem
    {pool : List (ConnectionKey × SessionModel)} {key : ConnectionKey}
    (h : lookupPool pool key = none) : key ∉ pool.map Prod.fst := by
  induction pool with
  | nil => simp
  | cons kv rest ih =>
    obtain ⟨k, v⟩ := kv
    rw [lookupPool_cons] at h
    by_cases hk : k = key
    · rw [if_pos hk] at h; exact absurd h (by simp)
    · rw [if_neg hk] at h
      simp only [List.map_cons, List.mem_cons]
      rintro (hkk | hmem)
      · exact hk hkk.symm
      · exact ih h hmem

theorem erasePool_sublist (pool : List (ConnectionKey × SessionModel))
    (key : ConnectionKey) : List.Sublist (erasePool pool key) pool := by
  induction pool with
  | nil => exact List.Sublist.refl []
  | cons kv rest ih =>
    obtain ⟨k, v⟩ := kv
    simp only [erasePool]
    by_cases h : k = key
    · rw [if_pos h]; exact List.sublist_cons_self (k, v) rest
    · rw [if_neg h]; exact List.cons_sublist_cons.mpr ih

theorem updatePool_map_fst (pool : List (ConnectionKey × SessionModel))
    (key : ConnectionKey) (f : SessionModel → SessionModel) :
    (updatePool pool key f).map Prod.fst = pool.map Prod.fst := by
  induction pool with
  | nil => rfl
  | cons kv rest ih =>
    obtain ⟨k, v⟩ := kv
    by_cases h : k = key <;> simp [updatePool, h, ih]

theorem updatePool_length (pool : List (ConnectionKey × SessionModel))
    (key : ConnectionKey) (f : SessionModel → SessionModel) :
    (updatePool pool key f).length = pool.length := by
  induction pool with
  | nil => rfl
  | cons kv rest ih =>
    obtain ⟨k, v⟩ := kv
    by_cases h : k = key <;> simp [updatePool, h, ih]

theorem lookupPool_updatePool_timerGen
    (pool : List (ConnectionKey × SessionModel)) (key k : ConnectionKey)
    (f : SessionModel → SessionModel)
    (hf : ∀ s, (f s).timerGen = s.timerGen) :
    (lookupPool (updatePool pool key f) k).map SessionModel.timerGen =
      (lookupPool pool k).map SessionModel.timerGen := by
  induction pool with
  | nil => rfl
  | cons kv rest ih =>
    obtain ⟨k0, v⟩ := kv
    by_cases hkey : k0 = key
    · by_cases hk : k0 = k
      · subst hkey; subst hk
        simp [updatePool, lookupPool_cons, hf]
      · subst hkey
        simp [updatePool, lookupPool_cons, hk, ih]
    · by_cases hk : k0 = k
      · subst hk
        simp [updatePool, lookupPool_cons, hkey]
      · simp [updatePool, lookupPool_cons, hkey, hk, ih]

/-! ## Case-analysis equations for `tryModel` and `timerFire` -/

theorem tryModel_reuse (limit : Nat) (nc : Except String SessionModel)
    (pool : List (ConnectionKey × SessionModel)) (info : ConnectionInfo)
    (sess : SessionModel) (h : lookupPool pool (keyOf info) = some sess) :
    tryModel limit nc pool info =
      (updatePool pool (keyOf info) (fun s => { s with queueLen := s.queueLen + 1 }),
       [PEv.enqueue (keyOf info)], TryRes.handedOff) := by
  unfold tryModel
  simp only [h]

theorem tryModel_capped (limit : Nat) (nc : Except String SessionModel)
    (pool : List (ConnectionKey × SessionModel)) (info : ConnectionInfo)
    (h : lookupPool pool (keyOf info) = none) (hcap : pool.length ≥ limit) :
    tryModel limit nc pool info =
      (pool, [PEv.cbError "too many active connections"], TryRes.retry) := by
  unfold tryModel
  simp only [h]
  rw [if_pos hcap]

theorem tryModel_fail (limit : Nat) (e : String)
    (pool : List (ConnectionKey × SessionModel)) (info : ConnectionInfo)
    (h : lookupPool pool (keyOf info) = none) (hcap : ¬ pool.length ≥ limit) :
    tryModel limit (Except.error e) pool info =
      (pool,
       [PEv.beginHandshake, PEv.endHandshake, PEv.cbError e, PEv.nilDeref],
       TryRes.crashed) := by
  unfold tryModel
  simp only [h]
  rw [if_neg hcap]

theorem tryModel_insert (limit : Nat) (sess : SessionModel)
    (pool : List (ConnectionKey × SessionModel)) (info : ConnectionInfo)
    (h : lookupPool pool (keyOf info) = none) (hcap : ¬ pool.length ≥ limit) :
    tryModel limit (Except.ok sess) pool info =
      ((keyOf info, { sess with queueLen := sess.queueLen + 1, timerGen := 1 })
         :: pool,
       [PEv.beginHandshake, PEv.endHandshake, PEv.enqueue (keyOf info)],
       TryRes.handedOff) := by
  unfold tryModel
  simp only [h]
  rw [if_neg hcap]

theorem timerFire_absent (pool : List (ConnectionKey × SessionModel))
    (key : ConnectionKey) (h : lookupPool pool key = none) :
    timerFire pool key = (pool, [PEv.lock, PEv.unlock]) := by
  unfold timerFire
  simp only [h]

theorem timerFire_evict (pool : List (ConnectionKey × SessionModel))
    (key : ConnectionKey) (sess : SessionModel)
    (h : lookupPool pool key = some sess) (hq : sess.queueLen = 0) :
    timerFire pool key =
      (erasePool pool key, [PEv.lock, PEv.closeSession key, PEv.unlock]) := by
  unfold timerFire
  simp only [h]
  rw [if_pos hq]

theorem timerFire_reset (pool : List (ConnectionKey × SessionModel))
    (key : ConnectionKey) (sess : SessionModel)
    (h : lookupPool pool key = some sess) (hq : sess.queueLen ≠ 0) :
    timerFire pool key =
      (updatePool pool key (fun s => { s with timerGen := s.timerGen + 1 }),
       [PEv.lock, PEv.resetTimer key, PEv.unlock]) := by
  unfold timerFire
  simp only [h]
  rw [if_neg hq]

theorem executeIter_fst (limit : Nat) (nc : Except String SessionModel)
    (pool : List (ConnectionKey × SessionModel)) (info : ConnectionInfo) :
    (executeIter limit nc pool info).1 = (tryModel limit nc pool info).1 := by
  unfold executeIter
  rcases h : tryModel limit nc pool info with ⟨pool2, evs, res⟩
  cases res <;> simp

/-! ## Preservation of the pool invariants -/

theorem tryModel_preserves_poolInv (limit : Nat)
    (nc : Except String SessionModel)
    (pool : List (ConnectionKey × SessionModel)) (info : ConnectionInfo)
    (h : poolInv limit pool) :
    poolInv limit (tryModel limit nc pool info).1 := by
  obtain ⟨hlen, hnodup⟩ := h
  cases hlook : lookupPool pool (keyOf info) with
  | some sess =>
    rw [tryModel_reuse limit nc pool info sess hlook]
    exact ⟨by simpa [updatePool_length] using hlen,
           by simpa [updatePool_map_fst] using hnodup⟩
  | none =>
    by_cases hcap : pool.length ≥ limit
    · rw [tryModel_capped limit nc pool info hlook hcap]
      exact ⟨hlen, hnodup⟩
    · cases nc with
      | error e =>
        rw [tryModel_fail limit e pool info hlook hcap]
        exact ⟨hlen, hnodup⟩
      | ok sess =>
        rw [tryModel_insert limit sess pool info hlook hcap]
        refine ⟨Nat.lt_of_not_le hcap, ?_⟩
        rw [List.map_cons]
        exact List.nodup_cons.mpr ⟨lookupPool_none_not_mem hlook, hnodup⟩

theorem timerFire_preserves_poolInv (limit : Nat)
    (pool : List (ConnectionKey × SessionModel)) (key : ConnectionKey)
    (h : poolInv limit pool) :
    poolInv limit (timerFire pool key).1 := by
  obtain ⟨hlen, hnodup⟩ := h
  cases hlook : lookupPool pool key with
  | none =>
    rw [timerFire_absent pool key hlook]
    exact ⟨hlen, hnodup⟩
  | some sess =>
    by_cases hq : sess.queueLen = 0
    · rw [timerFire_evict pool key sess hlook hq]
      exact ⟨Nat.le_trans (erasePool_sublist pool key).length_le hlen,
             hnodup.sublist ((erasePool_sublist pool key).map Prod.fst)⟩
    · rw [timerFire_reset pool key sess hlook hq]
      exact ⟨by simpa [updatePool_length] using hlen,
             by simpa [updatePool_map_fst] using hnodup⟩

theorem executeModel_preserves_poolInv (limit : Nat)
    (envs : List (Except String SessionModel)) :
    ∀ (pool : List (ConnectionKey × SessionModel)) (info : ConnectionInfo),
      poolInv limit pool →
      poolInv limit (executeModel limit envs pool info).1 := by
  induction envs with
  | nil => intro pool info h; exact h
  | cons nc rest ih =>
    intro pool info h
    have h2 : poolInv limit (executeIter limit nc pool info).1 := by
      rw [executeIter_fst]
      exact tryModel_preserves_poolInv limit nc pool info h
    unfold executeModel
    by_cases hres : (executeIter limit nc pool info).2.2 = TryRes.retry
    · rw [if_pos hres]
      exact ih (executeIter limit nc pool info).1 info h2
    · rw [if_neg hres]
      exact h2

/-! ## Concrete fixtures used by witnesses and counterexamples -/

/-- A descriptor for one peer. -/
def infoA : ConnectionInfo := ⟨"wss://ma", "phrase a", "", "", ""⟩

/-- A descriptor for a second peer, with a distinct session key. -/
def infoB : ConnectionInfo := ⟨"wss://mb", "phrase b", "", "", ""⟩

/-- A session for `infoA` already installed in the pool, idle queue. -/
def sessA : SessionModel := ⟨infoA, 0, 1⟩

/-- A freshly constructed session for `infoB`, as `NewConnection` returns
it (empty queue, timer not yet armed). -/
def sessB : SessionModel := ⟨infoB, 0, 0⟩

/-! ## Claim theorems -/

/-- C1 (code bug): when the pool is at its cap, each iteration of
`execute`'s admission retry loop invokes the action's `onError` and then
retries.  After two capped iterations the single action has already
received two `onError` invocations and `execute` is still looping —
contradicting the claim that such an action receives at most one callback
invocation in total. -/
theorem execute_at_cap_onError_every_iteration :
    countCbError (executeModel 1 [Except.ok sessB, Except.ok sessB]
        [(keyOf infoA, sessA)] infoB).2.1 = 2 ∧
    (executeModel 1 [Except.ok sessB, Except.ok sessB]
        [(keyOf infoA, sessA)] infoB).2.2 = none := by
  decide

/-- C2 (code bug): when Session construction fails, `try` delivers the
construction error to `onError` exactly once and leaves the pool map
unchanged — but then falls through to `connection.actions <- req` with
`connection` still nil: the iteration's trace ends in the nil-pointer
dereference with the pool lock still held (no `unlock` event), instead of
returning normally. -/
theorem construction_failure_nil_dereference :
    executeIter 210 (Except.error "handshake failed") [] infoB =
      ([],
       [PEv.lock, PEv.beginHandshake, PEv.endHandshake,
        PEv.cbError "handshake failed", PEv.nilDeref],
       TryRes.crashed) ∧
    countCbError
      (executeIter 210 (Except.error "handshake failed") [] infoB).2.1 = 1 := by
  decide

/-- C3 counterexample: a concrete `execute` call that constructs a new
session has a handshake in its trace but no `unlock` before it — the
pool-wide lock is not released before Session construction begins,
refuting the claim as stated. -/
theorem lock_not_released_before_handshake_cex :
    unlockBeforeHandshake (executeIter 210 (Except.ok sessB) [] infoB).2.1
        = false ∧
    PEv.beginHandshake ∈ (executeIter 210 (Except.ok sessB) [] infoB).2.1 := by
  decide

/-- C3 amended: during `execute`, the pool-wide lock is held across Session
construction.  Whenever the construction path is taken (no session under
the key and the cap not reached), the iteration's trace starts with the
lock acquisition, contains the handshake, and has no lock release before
the handshake begins — so a handshake in progress blocks every other
`execute` call for its full duration. -/
theorem lock_held_across_handshake (limit : Nat)
    (nc : Except String SessionModel)
    (pool : List (ConnectionKey × SessionModel)) (info : ConnectionInfo)
    (h : lookupPool pool (keyOf info) = none)
    (hcap : ¬ pool.length ≥ limit) :
    (executeIter limit nc pool info).2.1.head? = some PEv.lock ∧
    PEv.beginHandshake ∈ (executeIter limit nc pool info).2.1 ∧
    unlockBeforeHandshake (executeIter limit nc pool info).2.1 = false := by
  cases nc with
  | error e =>
    unfold executeIter
    rw [tryModel_fail limit e pool info h hcap]
    exact ⟨rfl, by simp, rfl⟩
  | ok sess =>
    unfold executeIter
    rw [tryModel_insert limit sess pool info h hcap]
    exact ⟨rfl, by simp, rfl⟩

theorem lock_held_across_handshake_witness :
    (executeIter 210 (Except.ok sessB) [] infoA).2.1.head? = some PEv.lock ∧
    PEv.beginHandshake ∈ (executeIter 210 (Except.ok sessB) [] infoA).2.1 ∧
    unlockBeforeHandshake (executeIter 210 (Except.ok sessB) [] infoA).2.1
        = false :=
  lock_held_across_handshake 210 (Except.ok sessB) [] infoA (by decide)
    (by decide)

/-- C5: the pool's invariants — at most `cap` entries and at most one live
session per `(mailbox, pairingPhrase)` key — are preserved by every
`execute` critical section (`tryModel`), by a whole `execute` call
(`executeModel`), and by every idle-timer firing (`timerFire`). -/
theorem pool_cap_and_key_uniqueness_invariants (limit : Nat)
    (nc : Except String SessionModel)
    (envs : List (Except String SessionModel))
    (pool : List (ConnectionKey × SessionModel)) (info : ConnectionInfo)
    (key : ConnectionKey) (h : poolInv limit pool) :
    poolInv limit (tryModel limit nc pool info).1 ∧
    poolInv limit (executeModel limit envs pool info).1 ∧
    poolInv limit (timerFire pool key).1 :=
  ⟨tryModel_preserves_poolInv limit nc pool info h,
   executeModel_preserves_poolInv limit envs pool info h,
   timerFire_preserves_poolInv limit pool key h⟩

theorem pool_cap_and_key_uniqueness_invariants_witness :
    poolInv 2 (tryModel 2 (Except.ok sessB) [(keyOf infoA, sessA)] infoB).1 ∧
    poolInv 2
      (executeModel 2 [Except.ok sessB] [(keyOf infoA, sessA)] infoB).1 ∧
    poolInv 2 (timerFire [(keyOf infoA, sessA)] (keyOf infoA)).1 :=
  pool_cap_and_key_uniqueness_invariants 2 (Except.ok sessB)
    [Except.ok sessB] [(keyOf infoA, sessA)] infoB (keyOf infoA)
    ⟨by decide, by decide⟩

/-- C6: when a session's idle timer fires, under the pool lock: an empty
action queue means the session is removed from the map and `Close()` runs;
a non-empty queue means the timer is reset to `T_idle` and the session
stays.  Enqueueing an action never resets the timer: no `tryModel` path
changes the timer state of any installed session. -/
theorem idle_timer_semantics (pool : List (ConnectionKey × SessionModel))
    (key : ConnectionKey) (sess : SessionModel)
    (h : lookupPool pool key = some sess) :
    (sess.queueLen = 0 →
      timerFire pool key =
        (erasePool pool key,
         [PEv.lock, PEv.closeSession key, PEv.unlock])) ∧
    (sess.queueLen ≠ 0 →
      timerFire pool key =
        (updatePool pool key (fun s => { s with timerGen := s.timerGen + 1 }),
         [PEv.lock, PEv.resetTimer key, PEv.unlock])) ∧
    (∀ (limit : Nat) (nc : Except String SessionModel)
        (info : ConnectionInfo) (k : ConnectionKey) (s2 : SessionModel),
      lookupPool pool k = some s2 →
      (lookupPool (tryModel limit nc pool info).1 k).map SessionModel.timerGen
        = some s2.timerGen) := by
  refine ⟨fun hq => timerFire_evict pool key sess h hq,
          fun hq => timerFire_reset pool key sess h hq,
          ?_⟩
  intro limit nc info k s2 hk
  cases hlook : lookupPool pool (keyOf info) with
  | some sess2 =>
    simp only [tryModel_reuse limit nc pool info sess2 hlook]
    rw [lookupPool_updatePool_timerGen pool (keyOf info) k
      (fun s => { s with queueLen := s.queueLen + 1 }) (fun s => rfl), hk]
    rfl
  | none =>
    by_cases hcap : pool.length ≥ limit
    · simp only [tryModel_capped limit nc pool info hlook hcap]
      rw [hk]
      rfl
    · cases nc with
      | error e =>
        simp only [tryModel_fail limit e pool info hlook hcap]
        rw [hk]
        rfl
      | ok s3 =>
        simp only [tryModel_insert limit s3 pool info hlook hcap]
        have hne : keyOf info ≠ k := by
          intro he
          rw [he, hk] at hlook
          exact Option.noConfusion hlook
        rw [lookupPool_cons, if_neg hne, hk]
        rfl

theorem idle_timer_semantics_witness :
    timerFire [(keyOf infoA, sessA)] (keyOf infoA) =
      (erasePool [(keyOf infoA, sessA)] (keyOf infoA),
       [PEv.lock, PEv.closeSession (keyOf infoA), PEv.unlock]) :=
  (idle_timer_semantics [(keyOf infoA, sessA)] (keyOf infoA) sessA
    (by decide)).1 (by decide)

/-- A live connection model: descriptor `infoA`, capability set from a
macaroon caveat `permissions = info:read,offchain:*`, one registry method. -/
def connA : ConnModel :=
  ⟨infoA, [("info", "read"), ("offchain", "*")],
   [("getinfo", InvokerOutcome.ok "42")]⟩

/-- The error-default used by `runLoop` when `perms.check` fails agrees
with the spec's allow predicate: the permission counts as not allowed. -/
theorem permCheck_default_eq_permAllowed (caps : List (String × String))
    (p : String) :
    (match permCheck caps p with
     | Except.error _ => false
     | Except.ok allowed => allowed) = permAllowed caps p := by
  cases hp : permPair p with
  | none => simp [permCheck, permAllowed, hp]
  | some ea =>
    obtain ⟨e, a⟩ := ea
    simp [permCheck, permAllowed, hp]

/-- C4 counterexample: for a `checkPerms` payload whose single permission
string fails `perms.check` (`BadPermissionFormat`), the dispatch loop does
not invoke `onError`: it reports the permission as `false` and completes
with `onResponse` — refuting the claim that a `perms.check` failure
short-circuits with `onError`. -/
theorem check_failure_still_onResponse_cex :
    runLoopStep connA ⟨"checkPerms", "[\"badformat\"]"⟩ =
      [CallbackEvent.onResponse connA.connInfo "[false]"] ∧
    permCheck connA.caps "badformat" =
      Except.error "BadPermissionFormat" :=
  ⟨rfl, rfl⟩

/-- C4 amended: in the dispatch loop's `checkPerms` handling, a failure to
parse the payload as a JSON array of permission strings short-circuits the
action with a single `onError` invocation; a failure returned by
`perms.check` for a requested permission does not short-circuit — that
permission is reported as `false` and the action completes with a single
`onResponse`. -/
theorem checkPerms_failure_paths (conn : ConnModel) (payload : String) :
    (decodeStringArray payload = none →
      runLoopStep conn ⟨"checkPerms", payload⟩ =
        [CallbackEvent.onError "json unmarshal error"]) ∧
    (∀ ps, decodeStringArray payload = some ps →
      runLoopStep conn ⟨"checkPerms", payload⟩ =
        [CallbackEvent.onResponse conn.connInfo
          (encodeBoolArray (ps.map (permAllowed conn.caps)))]) := by
  constructor
  · intro h
    simp only [runLoopStep, h, if_pos]
  · intro ps h
    simp only [runLoopStep, h, if_pos, permCheck_default_eq_permAllowed]

theorem checkPerms_failure_paths_witness :
    runLoopStep connA ⟨"checkPerms", "nonsense"⟩ =
      [CallbackEvent.onError "json unmarshal error"] :=
  (checkPerms_failure_paths connA "nonsense").1 (by decide)

/-- C8: for every `checkPerms` action whose payload decodes to `n`
permission strings, the dispatch loop delivers via `onResponse` a JSON
array of exactly `n` booleans in order, the `i`-th true iff the `i`-th
requested permission is allowed by the session's capability set (exact
pair or a wildcard on either side). -/
theorem checkPerms_preserves_length_and_order (conn : ConnModel)
    (payload : String) (ps : List String)
    (h : decodeStringArray payload = some ps) :
    runLoopStep conn ⟨"checkPerms", payload⟩ =
      [CallbackEvent.onResponse conn.connInfo
        (encodeBoolArray (ps.map (permAllowed conn.caps)))] ∧
    (ps.map (permAllowed conn.caps)).length = ps.length ∧
    ∀ (i : Nat) (hi : i < ps.length),
      (ps.map (permAllowed conn.caps)).get ⟨i, by simpa using hi⟩ =
        permAllowed conn.caps (ps.get ⟨i, hi⟩) := by
  refine ⟨?_, by simp, ?_⟩
  · simp only [runLoopStep, h, if_pos, permCheck_default_eq_permAllowed]
  · intro i hi
    simp

theorem checkPerms_preserves_length_and_order_witness :
    runLoopStep connA
        ⟨"checkPerms", "[\"info:read\",\"offchain:send\",\"onchain:read\"]"⟩ =
      [CallbackEvent.onResponse connA.connInfo
        (encodeBoolArray
          (["info:read", "offchain:send", "onchain:read"].map
            (permAllowed connA.caps)))] :=
  (checkPerms_preserves_length_and_order connA
    "[\"info:read\",\"offchain:send\",\"onchain:read\"]"
    ["info:read", "offchain:send", "onchain:read"] (by decide)).1

/-- C9: an action whose method is neither `checkPerms` nor a key of the
session's registry completes silently: the dispatch loop invokes no
registry invoker and neither `onResponse` nor `onError`. -/
theorem unknown_method_silent (conn : ConnModel) (req : ActionModel)
    (hm : req.method ≠ "checkPerms")
    (hr : lookupReg conn.registry req.method = none) :
    runLoopStep conn req = [] := by
  unfold runLoopStep
  rw [if_neg hm, hr]

theorem unknown_method_silent_witness :
    runLoopStep connA ⟨"closechannel", "x"⟩ = [] :=
  unknown_method_silent connA ⟨"closechannel", "x"⟩ (by decide) (by decide)

/-! ## `parseKeys` claims -/

/-- Branch equation for `parseKeys` when only the remote key is empty. -/
theorem parseKeys_localOnly (fresh : Nat) (l : String) (hl : l ≠ "") :
    parseKeys fresh l "" =
      match hexDecode l with
      | none => Except.error "BadKey: invalid hex in local private key"
      | some bs => Except.ok (privKeyFromBytes bs, none) := by
  unfold parseKeys
  rw [if_neg (fun hand => hl hand.1), if_pos rfl]

/-- Branch equation for `parseKeys`'s default branch (remote key present). -/
theorem parseKeys_default (fresh : Nat) (l r : String)
    (h1 : ¬ (l = "" ∧ r = "")) (h2 : r ≠ "") :
    parseKeys fresh l r =
      match hexDecode l with
      | none => Except.error "BadKey: invalid hex in local private key"
      | some lb =>
        match hexDecode r with
        | none => Except.error "BadKey: invalid hex in remote public key"
        | some rb =>
          match parsePubKey rb with
          | none => Except.error "BadKey: invalid remote public key point"
          | some pt => Except.ok (privKeyFromBytes lb, some pt) := by
  unfold parseKeys
  rw [if_neg h1, if_neg h2]

/-- C7: `parseKeys` implements three cases decided by which inputs are
empty: both empty mints the fresh scalar with no remote point; only
`remoteHex` empty decodes `localHex` as the scalar, with no remote point,
failing iff the hex decode fails; both present decodes both and validates
the remote compressed point, succeeding exactly when both decodes and the
validation succeed and failing with a `BadKey` error whenever a hex decode
or the curve validation fails. -/
theorem parseKeys_three_cases (fresh : Nat) (l r : String) :
    (l = "" ∧ r = "" → parseKeys fresh l r = Except.ok (fresh, none)) ∧
    (l ≠ "" ∧ r = "" →
      (∀ bs, hexDecode l = some bs →
        parseKeys fresh l r = Except.ok (privKeyFromBytes bs, none)) ∧
      (hexDecode l = none → ∃ e, parseKeys fresh l r = Except.error e)) ∧
    (l ≠ "" ∧ r ≠ "" →
      (∀ lb rb pt, hexDecode l = some lb → hexDecode r = some rb →
        parsePubKey rb = some pt →
        parseKeys fresh l r = Except.ok (privKeyFromBytes lb, some pt)) ∧
      (hexDecode l = none ∨ hexDecode r = none ∨
          (∃ rb, hexDecode r = some rb ∧ parsePubKey rb = none) →
        ∃ e, parseKeys fresh l r = Except.error e)) := by
  refine ⟨?_, ?_, ?_⟩
  · rintro ⟨hl, hr⟩
    subst hl; subst hr
    rfl
  · rintro ⟨hl, hr⟩
    subst hr
    rw [parseKeys_localOnly fresh l hl]
    constructor
    · intro bs hbs
      rw [hbs]
    · intro hln
      rw [hln]
      exact ⟨_, rfl⟩
  · rintro ⟨hl, hr⟩
    rw [parseKeys_default fresh l r (fun hand => hl hand.1) hr]
    constructor
    · intro lb rb pt hlb hrb hpt
      simp only [hlb, hrb, hpt]
    · rintro (hln | hrn | ⟨rb, hrb, hpt⟩)
      · rw [hln]
        exact ⟨_, rfl⟩
      · cases hld : hexDecode l with
        | none => exact ⟨_, rfl⟩
        | some lb =>
          simp only [hrn]
          exact ⟨_, rfl⟩
      · cases hld : hexDecode l with
        | none => exact ⟨_, rfl⟩
        | some lb =>
          simp only [hrb, hpt]
          exact ⟨_, rfl⟩

theorem parseKeys_three_cases_witness :
    parseKeys 7 "" "" = Except.ok (7, none) :=
  (parseKeys_three_cases 7 "" "").1 ⟨rfl, rfl⟩

/-- C10: with empty `localHex` and non-empty `remoteHex` — a shape outside
the spec's three-case split — `parseKeys` takes the default (both-present)
branch: the empty local string hex-decodes to the empty byte slice and the
private key is derived from those bytes (`privKeyFromBytes []`), rather
than minting the fresh key or failing on the local side, while the remote
key is still decoded and validated. -/
theorem parseKeys_empty_local_nonempty_remote (fresh : Nat) (r : String)
    (hr : r ≠ "") :
    parseKeys fresh "" r =
      match hexDecode r with
      | none => Except.error "BadKey: invalid hex in remote public key"
      | some rb =>
        match parsePubKey rb with
        | none => Except.error "BadKey: invalid remote public key point"
        | some pt => Except.ok (privKeyFromBytes [], some pt) := by
  rw [parseKeys_default fresh "" r (fun hand => hr hand.2) hr]
  rfl

theorem parseKeys_empty_local_nonempty_remote_witness :
    parseKeys 7 "" "00" =
      (match hexDecode "00" with
       | none => Except.error "BadKey: invalid hex in remote public key"
       | some rb =>
         match parsePubKey rb with
         | none => Except.error "BadKey: invalid remote public key point"
         | some pt => Except.ok (privKeyFromBytes [], some pt)) :=
  parseKeys_empty_local_nonempty_remote 7 "00" (by decide)

end Lncd
